import Mathlib

/-!
Verification development for the TwitchSocialNetwork crawler.

The Python source (database.py, network_utils.py, twitch_api.py) is shallowly
embedded here.  SQLite tables are modelled as lists of row structures, SQL
timestamps (Python `datetime` values) as integers, nullable columns as
`Option` values, and the `INSERT ... ON CONFLICT ... DO UPDATE` statements as
recursive walks that update the first row matching the conflict key or append
a fresh row at the end.  `datetime.now(timezone.utc)` is passed in explicitly
as a `now : Int` argument.
-/

/-- SQL `COALESCE(a, b)` on two nullable values. -/
def coalesce {α : Type} (a b : Option α) : Option α :=
  match a with
  | some x => some x
  | none => b

/-- The SQL expression
`CASE WHEN excluded.t > t THEN excluded.t ELSE t END` used by
`upsert_collaboration_edge` for `latest_collaboration_timestamp`, with SQL
NULL-comparison semantics: a comparison involving NULL is not true, so the
ELSE branch (the stored value) is kept. -/
def sqlLaterTimestamp (excluded stored : Option Int) : Option Int :=
  match excluded, stored with
  | some e, some s => if s < e then some e else some s
  | _, _ => stored

/-- A row of the `Collaborations` table (database.py, `initialize_database`).
`channel_id_1`/`channel_id_2` form the primary key, lower id first. -/
structure CollabRow where
  channel_id_1 : String
  channel_id_2 : String
  collaboration_count : Nat
  total_collaboration_duration_seconds : Int
  latest_collaboration_timestamp : Option Int
  first_collaboration_timestamp : Option Int
  last_updated : Int
deriving DecidableEq, Repr

/-- The `ON CONFLICT(channel_id_1, channel_id_2) DO UPDATE` part of the
upsert in `upsert_collaboration_edge`: update the row holding the conflict
key, or append the freshly inserted row when no row holds it. -/
def upsertEdgeRows (newRow : CollabRow) : List CollabRow → List CollabRow
  | [] => [newRow]
  | r :: rs =>
    if r.channel_id_1 = newRow.channel_id_1 ∧ r.channel_id_2 = newRow.channel_id_2 then
      { r with
        collaboration_count := r.collaboration_count + 1,
        total_collaboration_duration_seconds :=
          r.total_collaboration_duration_seconds + newRow.total_collaboration_duration_seconds,
        latest_collaboration_timestamp :=
          sqlLaterTimestamp newRow.latest_collaboration_timestamp r.latest_collaboration_timestamp,
        first_collaboration_timestamp :=
          coalesce r.first_collaboration_timestamp newRow.first_collaboration_timestamp,
        last_updated := newRow.last_updated } :: rs
    else r :: upsertEdgeRows newRow rs

/-- database.py `upsert_collaboration_edge(conn, channel_a_id, channel_b_id,
video_published_at, video_duration_seconds)`: returns unchanged on a
self-pair, otherwise canonicalizes the pair (`min`/`max`), defaults a null
duration to 0, and upserts
`VALUES (id1, id2, 1, duration, published_at, published_at, now)`. -/
def upsert_collaboration_edge (table : List CollabRow) (channel_a_id channel_b_id : String)
    (video_published_at : Option Int) (video_duration_seconds : Option Int) (now : Int) :
    List CollabRow :=
  if channel_a_id = channel_b_id then table
  else
    let id1 := min channel_a_id channel_b_id
    let id2 := max channel_a_id channel_b_id
    let duration := video_duration_seconds.getD 0
    upsertEdgeRows ⟨id1, id2, 1, duration, video_published_at, video_published_at, now⟩ table

/-- Whether a `Collaborations` row is the aggregate row for the unordered
channel pair `{a, b}` (stored canonically as `(min a b, max a b)`). -/
def edgeMatches (r : CollabRow) (a b : String) : Bool :=
  decide (r.channel_id_1 = min a b) && decide (r.channel_id_2 = max a b)

theorem upsertEdgeRows_of_no_match (newRow : CollabRow) :
    ∀ table : List CollabRow,
      (∀ r ∈ table, ¬(r.channel_id_1 = newRow.channel_id_1 ∧
        r.channel_id_2 = newRow.channel_id_2)) →
      upsertEdgeRows newRow table = table ++ [newRow] := by
  intro table
  induction table with
  | nil => intro _; rfl
  | cons r rs ih =>
    intro h
    have hr := h r (List.mem_cons_self r rs)
    simp only [upsertEdgeRows, if_neg hr, List.cons_append, List.cons.injEq, true_and]
    exact ih fun s hs => h s (List.mem_cons_of_mem r hs)

theorem upsertEdgeRows_of_match_last (newRow r0 : CollabRow)
    (h0 : r0.channel_id_1 = newRow.channel_id_1 ∧ r0.channel_id_2 = newRow.channel_id_2) :
    ∀ table : List CollabRow,
      (∀ r ∈ table, ¬(r.channel_id_1 = newRow.channel_id_1 ∧
        r.channel_id_2 = newRow.channel_id_2)) →
      upsertEdgeRows newRow (table ++ [r0]) =
        table ++ [{ r0 with
          collaboration_count := r0.collaboration_count + 1,
          total_collaboration_duration_seconds :=
            r0.total_collaboration_duration_seconds + newRow.total_collaboration_duration_seconds,
          latest_collaboration_timestamp :=
            sqlLaterTimestamp newRow.latest_collaboration_timestamp
              r0.latest_collaboration_timestamp,
          first_collaboration_timestamp :=
            coalesce r0.first_collaboration_timestamp newRow.first_collaboration_timestamp,
          last_updated := newRow.last_updated }] := by
  intro table
  induction table with
  | nil => intro _; simp [upsertEdgeRows, if_pos h0]
  | cons r rs ih =>
    intro h
    have hr := h r (List.mem_cons_self r rs)
    simp only [List.cons_append, upsertEdgeRows, if_neg hr, List.cons.injEq, true_and]
    exact ih fun s hs => h s (List.mem_cons_of_mem r hs)

theorem upsert_collaboration_edge_comm (table : List CollabRow) (a b : String)
    (p d : Option Int) (n : Int) :
    upsert_collaboration_edge table a b p d n = upsert_collaboration_edge table b a p d n := by
  unfold upsert_collaboration_edge
  by_cases hab : a = b
  · simp [hab]
  · have hba : ¬b = a := fun h => hab h.symm
    simp [hab, hba, min_comm a b, max_comm a b]

/-- Claim C1: starting from a store with no aggregate row for the distinct
pair `{A, B}`, calling `upsert_collaboration_edge` with `(A, B, t1, 100)` and
then `(B, A, t2, 50)` where `t1 < t2` leaves exactly one aggregate row for the
pair, stored in canonical low/high order, with `collaboration_count = 2`,
`total_collaboration_duration_seconds = 150`,
`first_collaboration_timestamp = t1` and
`latest_collaboration_timestamp = t2`; and the same final store results when
the argument order of each of the two calls is swapped. -/
theorem observeCollaboration_two_calls (table : List CollabRow) (A B : String)
    (t1 t2 n1 n2 : Int) (hAB : A ≠ B) (ht : t1 < t2)
    (hfresh : ∀ r ∈ table,
      ¬(r.channel_id_1 = min A B ∧ r.channel_id_2 = max A B)) :
    upsert_collaboration_edge
        (upsert_collaboration_edge table A B (some t1) (some 100) n1)
        B A (some t2) (some 50) n2
      = table ++ [⟨min A B, max A B, 2, 150, some t2, some t1, n2⟩] ∧
    (upsert_collaboration_edge
        (upsert_collaboration_edge table A B (some t1) (some 100) n1)
        B A (some t2) (some 50) n2).filter (fun r => edgeMatches r A B)
      = [⟨min A B, max A B, 2, 150, some t2, some t1, n2⟩] ∧
    upsert_collaboration_edge
        (upsert_collaboration_edge table B A (some t1) (some 100) n1)
        A B (some t2) (some 50) n2
      = upsert_collaboration_edge
          (upsert_collaboration_edge table A B (some t1) (some 100) n1)
          B A (some t2) (some 50) n2 := by
  have hBA : B ≠ A := fun h => hAB h.symm
  have step1 : upsert_collaboration_edge table A B (some t1) (some 100) n1
      = table ++ [⟨min A B, max A B, 1, 100, some t1, some t1, n1⟩] := by
    unfold upsert_collaboration_edge
    simp only [if_neg hAB]
    exact upsertEdgeRows_of_no_match _ table hfresh
  have step2 : upsert_collaboration_edge
      (table ++ [⟨min A B, max A B, 1, 100, some t1, some t1, n1⟩])
      B A (some t2) (some 50) n2
      = table ++ [⟨min A B, max A B, 2, 150, some t2, some t1, n2⟩] := by
    unfold upsert_collaboration_edge
    simp only [if_neg hBA]
    rw [min_comm B A, max_comm B A]
    have := upsertEdgeRows_of_match_last
      ⟨min A B, max A B, 1, (some (50 : Int)).getD 0, some t2, some t2, n2⟩
      ⟨min A B, max A B, 1, 100, some t1, some t1, n1⟩
      (by constructor <;> rfl) table hfresh
    rw [this]
    simp [sqlLaterTimestamp, coalesce, if_pos ht]
  have hmain : upsert_collaboration_edge
      (upsert_collaboration_edge table A B (some t1) (some 100) n1)
      B A (some t2) (some 50) n2
      = table ++ [⟨min A B, max A B, 2, 150, some t2, some t1, n2⟩] := by
    rw [step1]; exact step2
  refine ⟨hmain, ?_, ?_⟩
  · rw [hmain, List.filter_append]
    have h1 : table.filter (fun r => edgeMatches r A B) = [] := by
      rw [List.filter_eq_nil_iff]
      intro r hr
      have := hfresh r hr
      simp only [edgeMatches, Bool.and_eq_true, decide_eq_true_eq]
      intro hcontra
      exact this hcontra
    have h2 : (([⟨min A B, max A B, 2, 150, some t2, some t1, n2⟩] : List CollabRow).filter
        (fun r => edgeMatches r A B)) = [⟨min A B, max A B, 2, 150, some t2, some t1, n2⟩] := by
      simp [edgeMatches]
    rw [h1, h2, List.nil_append]
  · rw [upsert_collaboration_edge_comm table B A,
      upsert_collaboration_edge_comm _ A B]

/-- Witness for C1 at concrete inputs: channels "a" and "b", timestamps 1 and
2, durations 100 and 50, starting from the empty store. -/
theorem observeCollaboration_two_calls_witness :
    upsert_collaboration_edge
        (upsert_collaboration_edge [] "a" "b" (some 1) (some 100) 5)
        "b" "a" (some 2) (some 50) 6
      = [] ++ [⟨min "a" "b", max "a" "b", 2, 150, some 2, some 1, 6⟩] :=
  (observeCollaboration_two_calls [] "a" "b" 1 2 5 6 (by decide) (by decide)
    (by intro r hr; simp at hr)).1

/-- Claim C7: `upsert_collaboration_edge` on a self-pair `(A, A)` is a no-op:
the guard `if channel_a_id == channel_b_id: return` fires before any write,
so the store is returned entirely unchanged and no row is created. -/
theorem observeCollaboration_self_noop (table : List CollabRow) (A : String)
    (t d : Option Int) (n : Int) :
    upsert_collaboration_edge table A A t d n = table := by
  simp [upsert_collaboration_edge]

/-- A row of the `CollaborationContext` table (per-game collaboration
context).  Primary key `(channel_id_1, channel_id_2, game_id)`. -/
structure ContextRow where
  channel_id_1 : String
  channel_id_2 : String
  game_id : String
  game_name : Option String
  context_collaboration_count : Nat
  context_total_duration_seconds : Int
  last_updated : Int
deriving DecidableEq, Repr

/-- database.py: `effective_game_id = game_id if game_id and game_id.strip()
else "UNKNOWN_GAME_ID"` — the sentinel replaces a null, empty or
whitespace-only game id. -/
def effective_game_id (game_id : Option String) : String :=
  match game_id with
  | none => "UNKNOWN_GAME_ID"
  | some s => if s ≠ "" ∧ s.trim ≠ "" then s else "UNKNOWN_GAME_ID"

/-- database.py: `effective_game_name = game_name if effective_game_id !=
"UNKNOWN_GAME_ID" and game_name and game_name.strip() else
"Unknown/Not Specified"`. -/
def effective_game_name (egi : String) (game_name : Option String) : String :=
  match game_name with
  | none => "Unknown/Not Specified"
  | some s =>
    if egi ≠ "UNKNOWN_GAME_ID" ∧ s ≠ "" ∧ s.trim ≠ "" then s
    else "Unknown/Not Specified"

/-- The `ON CONFLICT(channel_id_1, channel_id_2, game_id) DO UPDATE` part of
`upsert_collaboration_context`. -/
def upsertContextRows (newRow : ContextRow) : List ContextRow → List ContextRow
  | [] => [newRow]
  | r :: rs =>
    if r.channel_id_1 = newRow.channel_id_1 ∧ r.channel_id_2 = newRow.channel_id_2 ∧
        r.game_id = newRow.game_id then
      { r with
        context_collaboration_count := r.context_collaboration_count + 1,
        context_total_duration_seconds :=
          r.context_total_duration_seconds + newRow.context_total_duration_seconds,
        game_name := coalesce newRow.game_name r.game_name,
        last_updated := newRow.last_updated } :: rs
    else r :: upsertContextRows newRow rs

/-- database.py `upsert_collaboration_context(conn, channel_id_1,
channel_id_2, game_id, game_name, video_duration_seconds)`.  Unlike
`upsert_collaboration_edge` there is no self-pair guard; the pair is
canonicalized with `min`/`max` and the game id is replaced by the sentinel
when null or blank. -/
def upsert_collaboration_context (table : List ContextRow)
    (channel_id_1 channel_id_2 : String) (game_id game_name : Option String)
    (video_duration_seconds : Option Int) (now : Int) : List ContextRow :=
  let id1 := min channel_id_1 channel_id_2
  let id2 := max channel_id_1 channel_id_2
  let egi := effective_game_id game_id
  let egn := effective_game_name egi game_name
  let duration := video_duration_seconds.getD 0
  upsertContextRows ⟨id1, id2, egi, some egn, 1, duration, now⟩ table

/-- Lookup of a `CollaborationContext` row by its primary key (first match,
mirroring the fact that the key is unique in SQLite). -/
def findContextRow (table : List ContextRow) (c1 c2 gid : String) : Option ContextRow :=
  table.find? (fun r => decide (r.channel_id_1 = c1) && decide (r.channel_id_2 = c2) &&
    decide (r.game_id = gid))

theorem upsertContextRows_of_no_match (newRow : ContextRow) :
    ∀ table : List ContextRow,
      (∀ r ∈ table, ¬(r.channel_id_1 = newRow.channel_id_1 ∧
        r.channel_id_2 = newRow.channel_id_2 ∧ r.game_id = newRow.game_id)) →
      upsertContextRows newRow table = table ++ [newRow] := by
  intro table
  induction table with
  | nil => intro _; rfl
  | cons r rs ih =>
    intro h
    have hr := h r (List.mem_cons_self r rs)
    simp only [upsertContextRows, if_neg hr, List.cons_append, List.cons.injEq, true_and]
    exact ih fun s hs => h s (List.mem_cons_of_mem r hs)

theorem findContextRow_upsertContextRows (newRow : ContextRow) :
    ∀ table : List ContextRow,
      findContextRow (upsertContextRows newRow table)
          newRow.channel_id_1 newRow.channel_id_2 newRow.game_id
        = some (match findContextRow table newRow.channel_id_1 newRow.channel_id_2
            newRow.game_id with
          | some r =>
            { r with
              context_collaboration_count := r.context_collaboration_count + 1,
              context_total_duration_seconds :=
                r.context_total_duration_seconds + newRow.context_total_duration_seconds,
              game_name := coalesce newRow.game_name r.game_name,
              last_updated := newRow.last_updated }
          | none => newRow) := by
  intro table
  induction table with
  | nil => simp [upsertContextRows, findContextRow]
  | cons r rs ih =>
    by_cases hr : r.channel_id_1 = newRow.channel_id_1 ∧ r.channel_id_2 = newRow.channel_id_2 ∧
        r.game_id = newRow.game_id
    · simp only [upsertContextRows, if_pos hr, findContextRow, List.find?]
      have hb : (decide (r.channel_id_1 = newRow.channel_id_1) &&
          decide (r.channel_id_2 = newRow.channel_id_2) &&
          decide (r.game_id = newRow.game_id)) = true := by
        simp [hr.1, hr.2.1, hr.2.2]
      simp [hb]
    · have hb : (decide (r.channel_id_1 = newRow.channel_id_1) &&
          decide (r.channel_id_2 = newRow.channel_id_2) &&
          decide (r.game_id = newRow.game_id)) = false := by
        by_contra hcon
        rw [Bool.not_eq_false] at hcon
        simp only [Bool.and_eq_true, decide_eq_true_eq] at hcon
        exact hr ⟨hcon.1.1, hcon.1.2, hcon.2⟩
      simp only [upsertContextRows, if_neg hr, findContextRow, List.find?, hb]
      exact ih

/-- Claim C9 (implicit): `upsert_collaboration_context` has no self-pair
guard.  For a channel id `A` and any game id, calling it with both channel
arguments equal to `A` creates a context row keyed `(A, A, effective game
id)` with count 1 when none exists, and increments the count (and adds the
duration) of the existing row otherwise; the pair order is canonicalized,
and a null or blank game id is replaced by the sentinel
`"UNKNOWN_GAME_ID"`. -/
theorem observeCollaborationContext_self_pair (table : List ContextRow) (A : String)
    (game_id game_name : Option String) (d : Option Int) (now : Int) :
    ((∀ r ∈ table, ¬(r.channel_id_1 = A ∧ r.channel_id_2 = A ∧
        r.game_id = effective_game_id game_id)) →
      upsert_collaboration_context table A A game_id game_name d now
        = table ++ [⟨A, A, effective_game_id game_id,
            some (effective_game_name (effective_game_id game_id) game_name),
            1, d.getD 0, now⟩]) ∧
    (∀ r0, findContextRow table A A (effective_game_id game_id) = some r0 →
      findContextRow (upsert_collaboration_context table A A game_id game_name d now)
          A A (effective_game_id game_id)
        = some { r0 with
            context_collaboration_count := r0.context_collaboration_count + 1,
            context_total_duration_seconds := r0.context_total_duration_seconds + d.getD 0,
            game_name := some (effective_game_name (effective_game_id game_id) game_name),
            last_updated := now }) ∧
    (∀ a b : String, upsert_collaboration_context table a b game_id game_name d now
      = upsert_collaboration_context table b a game_id game_name d now) ∧
    effective_game_id none = "UNKNOWN_GAME_ID" ∧
    (∀ s : String, s.trim = "" → effective_game_id (some s) = "UNKNOWN_GAME_ID") := by
  refine ⟨?_, ?_, ?_, rfl, ?_⟩
  · intro hfresh
    unfold upsert_collaboration_context
    simp only [min_self, max_self]
    exact upsertContextRows_of_no_match _ table hfresh
  · intro r0 h0
    unfold upsert_collaboration_context
    simp only [min_self, max_self]
    have := findContextRow_upsertContextRows
      ⟨A, A, effective_game_id game_id,
        some (effective_game_name (effective_game_id game_id) game_name), 1, d.getD 0, now⟩
      table
    simp only at this
    rw [this, h0]
    simp [coalesce]
  · intro a b
    unfold upsert_collaboration_context
    rw [min_comm a b, max_comm a b]
  · intro s hs
    unfold effective_game_id
    by_cases hse : s = ""
    · simp [hse]
    · simp [hs]

/-- Witness for C9 at concrete inputs: channel "a" paired with itself, blank
game id, on the empty store and on a store already holding the row. -/
theorem observeCollaborationContext_self_pair_witness :
    upsert_collaboration_context [] "a" "a" (some " ") none (some 30) 7
      = [] ++ [⟨"a", "a", effective_game_id (some " "),
          some (effective_game_name (effective_game_id (some " ")) none), 1,
          (some (30 : Int)).getD 0, 7⟩] :=
  (observeCollaborationContext_self_pair [] "a" (some " ") none (some 30) 7).1
    (by intro r hr; simp at hr)

/-- A row of the `Channels` table (the columns touched by
`save_channel_details`, plus `first_seen` and `last_fetched_videos`). -/
structure ChannelRow where
  id : String
  login : String
  display_name : Option String
  description : Option String
  profile_image_url : Option String
  broadcaster_type : Option String
  view_count : Int
  follower_count : Option Int
  created_at : Option Int
  first_seen : Option Int
  last_fetched_details : Option Int
  last_fetched_videos : Option Int
deriving DecidableEq, Repr

/-- The `channel_details` argument of database.py `save_channel_details`.
`created_at` holds the already-parsed platform timestamp: `none` models both
a missing `created_at` and one `datetime.fromisoformat` failed to parse (the
Python code passes `None` in both cases).  `view_count` models
`channel_details.get('view_count', 0)`: a missing field defaults to 0. -/
structure ChannelDetails where
  id : String
  login : String
  display_name : Option String
  description : Option String
  profile_image_url : Option String
  broadcaster_type : Option String
  view_count : Option Int
  follower_count : Option Int
  created_at : Option Int
deriving DecidableEq, Repr

/-- The `ON CONFLICT(id) DO UPDATE SET` clause of `save_channel_details`:
every mutable profile field is overwritten with the excluded (new) value,
and `created_at = COALESCE(excluded.created_at, created_at)` — the NEW value
wins whenever it is non-null. -/
def channelUpdate (r : ChannelRow) (d : ChannelDetails) (now : Int) : ChannelRow :=
  { r with
    login := d.login,
    display_name := d.display_name,
    description := d.description,
    profile_image_url := d.profile_image_url,
    broadcaster_type := d.broadcaster_type,
    view_count := d.view_count.getD 0,
    follower_count := d.follower_count,
    created_at := coalesce d.created_at r.created_at,
    last_fetched_details := some now }

/-- The `INSERT INTO Channels (...)` part of `save_channel_details`;
`first_seen` takes its SQL column default `CURRENT_TIMESTAMP`. -/
def channelInsert (d : ChannelDetails) (now : Int) : ChannelRow :=
  { id := d.id, login := d.login, display_name := d.display_name,
    description := d.description, profile_image_url := d.profile_image_url,
    broadcaster_type := d.broadcaster_type, view_count := d.view_count.getD 0,
    follower_count := d.follower_count, created_at := d.created_at,
    first_seen := some now, last_fetched_details := some now,
    last_fetched_videos := none }

/-- Row walk realising the insert-or-update of `save_channel_details` on the
`Channels` table (conflict key: primary key `id`). -/
def saveChannelRows (d : ChannelDetails) (now : Int) : List ChannelRow → List ChannelRow
  | [] => [channelInsert d now]
  | r :: rs => if r.id = d.id then channelUpdate r d now :: rs else r :: saveChannelRows d now rs

/-- database.py `save_channel_details(conn, channel_details)` (the successful
path, no database error). -/
def save_channel_details (table : List ChannelRow) (d : ChannelDetails) (now : Int) :
    List ChannelRow :=
  saveChannelRows d now table

/-- Lookup of a `Channels` row by primary key (first match). -/
def findChannelRow (table : List ChannelRow) (cid : String) : Option ChannelRow :=
  table.find? (fun r => decide (r.id = cid))

/-- Concrete stored channel row used to test the `created_at` merge rule:
its `created_at` is already non-null (5). -/
def c2StoredRow : ChannelRow :=
  ⟨"c1", "login1", none, none, none, none, 0, none, some 5, some 0, some 0, none⟩

/-- A fresh full profile observation for the same channel, carrying a
non-null platform-reported `created_at` of 7. -/
def c2NewDetails : ChannelDetails :=
  ⟨"c1", "login1", some "L1", none, none, none, some 3, some 42, some 7⟩

/-- Counterexample to claim C2: the stored `created_at` is non-null (5), the
new observation carries a non-null `created_at` (7), and after
`save_channel_details` the stored value is 7 — the SQL clause is
`COALESCE(excluded.created_at, created_at)`, so the NEW value overwrites the
stored one; the claim's "set only when currently null" direction would
require `COALESCE(created_at, excluded.created_at)`.  The final conjunct
records (as a decidable computation) that the stored value did change. -/
theorem observeChannelDetails_created_at_counterexample :
    (findChannelRow [c2StoredRow] "c1").map ChannelRow.created_at = some (some 5) ∧
    (findChannelRow (save_channel_details [c2StoredRow] c2NewDetails 10) "c1").map
        ChannelRow.created_at = some (some 7) ∧
    decide ((findChannelRow (save_channel_details [c2StoredRow] c2NewDetails 10) "c1").map
        ChannelRow.created_at = some (some 5)) = false := by
  refine ⟨?_, ?_, ?_⟩ <;> rfl

theorem findChannelRow_saveChannelRows (d : ChannelDetails) (now : Int) :
    ∀ table : List ChannelRow,
      findChannelRow (saveChannelRows d now table) d.id
        = some (match findChannelRow table d.id with
          | some r => channelUpdate r d now
          | none => channelInsert d now) := by
  intro table
  induction table with
  | nil => simp [saveChannelRows, findChannelRow, channelInsert]
  | cons r rs ih =>
    by_cases hr : r.id = d.id
    · simp only [saveChannelRows, if_pos hr, findChannelRow, List.find?]
      have h1 : decide ((channelUpdate r d now).id = d.id) = true := by
        simp [channelUpdate, hr]
      have h2 : decide (r.id = d.id) = true := by simp [hr]
      simp [h1, h2]
    · have h2 : decide (r.id = d.id) = false := by simp [hr]
      simp only [saveChannelRows, if_neg hr, findChannelRow, List.find?, h2]
      exact ih

/-- Claim C2, amended: for a channel that already has a stored row, a new
full-profile observation overwrites every mutable profile field with the
latest values, and `created_at` follows
`COALESCE(excluded.created_at, created_at)`: the newly observed value is
stored whenever it is non-null, and the previously stored value is kept only
when the new observation's `created_at` is null (missing or unparseable). -/
theorem observeChannelDetails_merge (table : List ChannelRow) (d : ChannelDetails)
    (now : Int) (r : ChannelRow) (h : findChannelRow table d.id = some r) :
    findChannelRow (save_channel_details table d now) d.id = some (channelUpdate r d now) ∧
    (channelUpdate r d now).created_at = coalesce d.created_at r.created_at ∧
    (∀ v : Int, d.created_at = some v → (channelUpdate r d now).created_at = some v) ∧
    (d.created_at = none → (channelUpdate r d now).created_at = r.created_at) ∧
    (channelUpdate r d now).login = d.login ∧
    (channelUpdate r d now).display_name = d.display_name ∧
    (channelUpdate r d now).description = d.description ∧
    (channelUpdate r d now).profile_image_url = d.profile_image_url ∧
    (channelUpdate r d now).broadcaster_type = d.broadcaster_type ∧
    (channelUpdate r d now).view_count = d.view_count.getD 0 ∧
    (channelUpdate r d now).follower_count = d.follower_count ∧
    (channelUpdate r d now).last_fetched_details = some now := by
  refine ⟨?_, rfl, ?_, ?_, rfl, rfl, rfl, rfl, rfl, rfl, rfl, rfl⟩
  · rw [save_channel_details, findChannelRow_saveChannelRows, h]
  · intro v hv
    simp [channelUpdate, coalesce, hv]
  · intro hv
    simp [channelUpdate, coalesce, hv]

/-- Witness for the amended C2 at concrete inputs: the stored row has
`created_at = some 5`, the new details have `created_at = some 7`, and the
merged row stores 7. -/
theorem observeChannelDetails_merge_witness :
    findChannelRow (save_channel_details [c2StoredRow] c2NewDetails 10) "c1"
      = some (channelUpdate c2StoredRow c2NewDetails 10) :=
  (observeChannelDetails_merge [c2StoredRow] c2NewDetails 10 c2StoredRow (by rfl)).1

/-- A persistence-layer failure (sqlite3.Error: constraint violation or
connectivity failure). -/
inductive DBError where
  | persistence
deriving DecidableEq, Repr

/-- A row of the `Categories` table. -/
structure CategoryRow where
  id : String
  name : String
  last_scanned_top_streams : Option Int
deriving DecidableEq, Repr

/-- `INSERT OR IGNORE INTO Categories (id, name)` over a batch: a record
whose id already has a row is skipped, others are appended. -/
def insertOrIgnoreCategories (table : List CategoryRow) : List (String × String) → List CategoryRow
  | [] => table
  | (cid, cname) :: rest =>
    if (table.find? (fun r => decide (r.id = cid))).isSome then
      insertOrIgnoreCategories table rest
    else
      insertOrIgnoreCategories (table ++ [⟨cid, cname, none⟩]) rest

/-- database.py `save_categories(conn, categories)`.  The Python body wraps
`executemany` in `try/except sqlite3.Error`: on a database error it logs,
calls `conn.rollback()` and RETURNS NORMALLY — the caller observes a normal
return with the store rolled back, never an exception.  `dbFails` models
whether the underlying insert raises. -/
def save_categories (table : List CategoryRow) (categories : List (String × String))
    (dbFails : Bool) : Except DBError (List CategoryRow) :=
  if dbFails then Except.ok table
  else Except.ok (insertOrIgnoreCategories table categories)

/-- A record of the Twitch `/videos` payload as consumed by `save_videos`
(time fields already parsed; `none` models missing or unparseable). -/
structure VideoRecord where
  id : String
  user_id : String
  title : Option String
  published_at : Option Int
  view_count : Option Int
  duration : Option String
  game_id : Option String
  game_name : Option String
deriving DecidableEq, Repr

/-- A row of the `Videos` table (the columns that matter to the claims). -/
structure VideoRow where
  id : String
  channel_id : String
  title : Option String
  published_at : Option Int
  view_count : Option Int
  duration : Option String
  game_id : Option String
  game_name : Option String
  mentions_processed_at : Option Int
deriving DecidableEq, Repr

/-- `INSERT OR IGNORE INTO Videos (...)` over a batch;
`mentions_processed_at` defaults to NULL. -/
def insertOrIgnoreVideos (table : List VideoRow) : List VideoRecord → List VideoRow
  | [] => table
  | v :: rest =>
    if (table.find? (fun r => decide (r.id = v.id))).isSome then
      insertOrIgnoreVideos table rest
    else
      insertOrIgnoreVideos (table ++ [⟨v.id, v.user_id, v.title, v.published_at,
        v.view_count, v.duration, v.game_id, v.game_name, none⟩]) rest

/-- database.py `save_videos(conn, videos)`.  Like `save_categories`, the
`except sqlite3.Error` arm logs and rolls back WITHOUT re-raising, so the
caller always observes a normal return. -/
def save_videos (table : List VideoRow) (videos : List VideoRecord) (dbFails : Bool) :
    Except DBError (List VideoRow) :=
  if dbFails then Except.ok table
  else Except.ok (insertOrIgnoreVideos table videos)

/-- database.py `save_channel_details` with its error path: its
`except sqlite3.Error` arm logs, rolls back and then RE-RAISES (`raise`), so
a database failure is propagated to the caller. -/
def save_channel_detailsE (table : List ChannelRow) (d : ChannelDetails) (now : Int)
    (dbFails : Bool) : Except DBError (List ChannelRow) :=
  if dbFails then Except.error DBError.persistence
  else Except.ok (save_channel_details table d now)

/-- Concrete video record used for the C3 counterexample. -/
def c3Video : VideoRecord := ⟨"v1", "c1", some "t", some 1, some 0, none, none, none⟩

/-- Counterexample to claim C3: with the underlying insert failing
(`dbFails = true`), `save_videos` and `save_categories` both return
`Except.ok` with the rolled-back (unchanged) store — the persistence error
is logged and swallowed, not propagated to the caller as the claim
states. -/
theorem observeVideos_swallows_error_counterexample :
    save_videos [] [c3Video] true = Except.ok [] ∧
    (save_videos [] [c3Video] true).isOk = true ∧
    save_categories [] [("g1", "Game One")] true = Except.ok [] ∧
    (save_categories [] [("g1", "Game One")] true).isOk = true := by
  refine ⟨rfl, rfl, rfl, rfl⟩

/-- Claim C3, amended: on a persistence failure, `save_channel_details`
propagates the error to its caller, while `save_videos` and
`save_categories` catch the error, roll the transaction back and return
normally with the store unchanged (the error is logged and swallowed). -/
theorem persistence_error_propagation (ct : List CategoryRow) (cs : List (String × String))
    (vt : List VideoRow) (vs : List VideoRecord) (cht : List ChannelRow)
    (d : ChannelDetails) (now : Int) :
    save_channel_detailsE cht d now true = Except.error DBError.persistence ∧
    save_videos vt vs true = Except.ok vt ∧
    save_categories ct cs true = Except.ok ct := by
  refine ⟨rfl, rfl, rfl⟩

/-- Python `str.lower()` as used on ASCII channel logins: lower-case every
character.  (Defined as a structural map over the character list so that it
computes by kernel reduction; `String.toLower` itself is defined by
well-founded recursion over byte positions and does not reduce.) -/
def strToLower (s : String) : String :=
  String.mk (s.data.map Char.toLower)

/-- A `Channels` row as consumed by `find_mentioned_channel_ids` (only the
`id` and `login` columns are queried). -/
structure ChanIdLogin where
  id : String
  login : String
deriving DecidableEq, Repr

/-- network_utils.py: `set(l.lower() for l in logins if isinstance(l, str)
and l)` — keep the truthy (non-empty) inputs, lower-case them,
deduplicate. -/
def lowerValidLogins (logins : List String) : List String :=
  ((logins.filter (fun l => decide (l ≠ ""))).map strToLower).dedup

/-- Python dict assignment `d[k] = v` on an association list: overwrite the
existing binding of `k` or append a new one. -/
def insertAssoc (m : List (String × String)) (k v : String) : List (String × String) :=
  match m with
  | [] => [(k, v)]
  | (k', v') :: rest => if k' = k then (k, v) :: rest else (k', v') :: insertAssoc rest k v

/-- Whether the association list (Python dict) binds the key `s`. -/
def hasKey (m : List (String × String)) (s : String) : Bool :=
  m.any (fun p => decide (p.1 = s))

/-- network_utils.py `find_mentioned_channel_ids(logins, db_conn)`.
The SQL query `SELECT id, login FROM Channels WHERE LOWER(login) IN (...)`
is modelled as a filter over the `Channels` rows; `dbFails` models
`sqlite3.Error` being raised by the query, in which case the code returns
`({}, list(logins_set))`.  `found_channels[row.login.lower()] = row.id` is
the dict insertion, and `not_found` is the candidate set minus the found
keys. -/
def find_mentioned_channel_ids (logins : List String) (db : List ChanIdLogin)
    (dbFails : Bool) : List (String × String) × List String :=
  if logins = [] then ([], [])
  else
    let logins_set := lowerValidLogins logins
    if logins_set = [] then ([], [])
    else if dbFails then ([], logins_set)
    else
      let results := db.filter (fun r => decide (strToLower r.login ∈ logins_set))
      let found := results.foldl (fun acc r => insertAssoc acc (strToLower r.login) r.id) []
      (found, logins_set.filter (fun l => !(hasKey found l)))

/-- Counterexample to claim C4: for input list `["FOO"]` the code lower-cases
the candidate before querying, so with an empty channel table the call
returns `([], ["foo"])` — the input login `"FOO"` appears in neither output
(the found map is empty and `"FOO" ∈ ["foo"]` is false), both on the
successful path and on the lookup-failure path, so the union of the two
outputs is not the set of input logins. -/
theorem resolve_counterexample :
    find_mentioned_channel_ids ["FOO"] [] false = ([], ["foo"]) ∧
    find_mentioned_channel_ids ["FOO"] [] true = ([], ["foo"]) ∧
    decide (("FOO" : String) ∈ (["foo"] : List String)) = false := by
  refine ⟨by decide, by decide, by decide⟩

theorem hasKey_cons (p : String × String) (m : List (String × String)) (s : String) :
    hasKey (p :: m) s = (decide (p.1 = s) || hasKey m s) := rfl

theorem hasKey_insertAssoc (k v s : String) :
    ∀ m : List (String × String),
      (hasKey (insertAssoc m k v) s = true ↔ hasKey m s = true ∨ s = k) := by
  intro m
  induction m with
  | nil => simp [insertAssoc, hasKey, eq_comm]
  | cons p rest ih =>
    obtain ⟨k', v'⟩ := p
    by_cases hk : k' = k
    · subst hk
      have he : insertAssoc ((k', v') :: rest) k' v = (k', v) :: rest := by
        simp [insertAssoc]
      rw [he]
      simp only [hasKey_cons, Bool.or_eq_true, decide_eq_true_eq]
      constructor
      · rintro (h | h)
        · exact Or.inl (Or.inl h)
        · exact Or.inl (Or.inr h)
      · rintro ((h | h) | h)
        · exact Or.inl h
        · exact Or.inr h
        · exact Or.inl h.symm
    · simp only [insertAssoc, if_neg hk, hasKey_cons, Bool.or_eq_true, decide_eq_true_eq, ih]
      tauto

theorem hasKey_resolveFold (s : String) :
    ∀ (rs : List ChanIdLogin) (acc : List (String × String)),
      hasKey (rs.foldl (fun acc r => insertAssoc acc (strToLower r.login) r.id) acc) s = true →
      hasKey acc s = true ∨ ∃ r ∈ rs, strToLower r.login = s := by
  intro rs
  induction rs with
  | nil => intro acc h; exact Or.inl h
  | cons r rest ih =>
    intro acc h
    rcases ih (insertAssoc acc (strToLower r.login) r.id) h with h' | h'
    · rcases (hasKey_insertAssoc _ _ _ _).mp h' with h'' | h''
      · exact Or.inl h''
      · exact Or.inr ⟨r, List.mem_cons_self r rest, h''.symm⟩
    · obtain ⟨r', hr', he⟩ := h'
      exact Or.inr ⟨r', List.mem_cons_of_mem r hr', he⟩

/-- The found-channels dict built by `find_mentioned_channel_ids` on its
successful path (the loop over the SQL result rows). -/
def resolveFound (logins : List String) (db : List ChanIdLogin) : List (String × String) :=
  (db.filter (fun r => decide (strToLower r.login ∈ lowerValidLogins logins))).foldl
    (fun acc r => insertAssoc acc (strToLower r.login) r.id) []

theorem find_mentioned_eq_main (logins : List String) (db : List ChanIdLogin)
    (h0 : logins ≠ []) (hS : lowerValidLogins logins ≠ []) :
    find_mentioned_channel_ids logins db false =
      (resolveFound logins db,
        (lowerValidLogins logins).filter (fun l => !(hasKey (resolveFound logins db) l))) := by
  unfold find_mentioned_channel_ids resolveFound
  rw [if_neg h0, if_neg hS, if_neg Bool.false_ne_true]

theorem find_mentioned_eq_fail (logins : List String) (db : List ChanIdLogin)
    (h0 : logins ≠ []) (hS : lowerValidLogins logins ≠ []) :
    find_mentioned_channel_ids logins db true = ([], lowerValidLogins logins) := by
  unfold find_mentioned_channel_ids
  rw [if_neg h0, if_neg hS, if_pos rfl]

/-- Claim C4, amended: the two outputs of `find_mentioned_channel_ids`
partition the set of LOWER-CASED NON-EMPTY input logins (not the raw input
logins): the found map's key set and the not-found list are disjoint and
together cover exactly `lowerValidLogins logins`; and when the lookup fails,
the found map is empty and every lower-cased valid candidate is reported as
not found. -/
theorem resolve_partition (logins : List String) (db : List ChanIdLogin) :
    (∀ s : String,
      (hasKey (find_mentioned_channel_ids logins db false).1 s = true ∨
        s ∈ (find_mentioned_channel_ids logins db false).2)
      ↔ s ∈ lowerValidLogins logins) ∧
    (∀ s : String, hasKey (find_mentioned_channel_ids logins db false).1 s = true →
      s ∈ (find_mentioned_channel_ids logins db false).2 → False) ∧
    (logins ≠ [] → lowerValidLogins logins ≠ [] →
      find_mentioned_channel_ids logins db true = ([], lowerValidLogins logins)) := by
  by_cases h0 : logins = []
  · subst h0
    refine ⟨?_, ?_, ?_⟩
    · intro s
      simp [find_mentioned_channel_ids, lowerValidLogins, hasKey]
    · intro s h1 h2
      simp [find_mentioned_channel_ids, hasKey] at h1
    · intro h _; exact absurd rfl h
  · by_cases hS : lowerValidLogins logins = []
    · have he : find_mentioned_channel_ids logins db false = ([], []) := by
        unfold find_mentioned_channel_ids
        rw [if_neg h0, if_pos hS]
      refine ⟨?_, ?_, ?_⟩
      · intro s
        rw [he, hS]
        simp [hasKey]
      · intro s h1 h2
        rw [he] at h1
        simp [hasKey] at h1
      · intro _ hS'; exact absurd hS hS'
    · have he := find_mentioned_eq_main logins db h0 hS
      refine ⟨?_, ?_, fun _ _ => find_mentioned_eq_fail logins db h0 hS⟩
      · intro s
        rw [he]
        constructor
        · rintro (h | h)
          · rcases hasKey_resolveFold s _ _ h with h' | h'
            · simp [hasKey] at h'
            · obtain ⟨r, hr, hrs⟩ := h'
              rw [List.mem_filter] at hr
              have := hr.2
              simp only [decide_eq_true_eq] at this
              rw [← hrs]
              exact this
          · exact (List.mem_filter.mp h).1
        · intro hs
          by_cases hk : hasKey (resolveFound logins db) s = true
          · exact Or.inl hk
          · refine Or.inr (List.mem_filter.mpr ⟨hs, ?_⟩)
            rw [Bool.not_eq_true] at hk
            simp [hk]
      · intro s h1 h2
        rw [he] at h1 h2
        have := (List.mem_filter.mp h2).2
        rw [h1] at this
        simp at this

/-- Witness for the amended C4 at concrete inputs: candidate logins
`["Foo_1", "ghost"]` against a table containing only `foo_1`; `foo_1`
appears in one of the outputs (it is found), and on a lookup failure every
lower-cased candidate is reported not found. -/
theorem resolve_partition_witness :
    (hasKey (find_mentioned_channel_ids ["Foo_1", "ghost"] [⟨"1001", "foo_1"⟩] false).1
        "foo_1" = true ∨
      "foo_1" ∈ (find_mentioned_channel_ids ["Foo_1", "ghost"] [⟨"1001", "foo_1"⟩] false).2) ∧
    find_mentioned_channel_ids ["Foo_1", "ghost"] [⟨"1001", "foo_1"⟩] true
      = ([], lowerValidLogins ["Foo_1", "ghost"]) :=
  ⟨((resolve_partition ["Foo_1", "ghost"] [⟨"1001", "foo_1"⟩]).1 "foo_1").mpr (by decide),
   (resolve_partition ["Foo_1", "ghost"] [⟨"1001", "foo_1"⟩]).2.2 (by decide) (by decide)⟩

/-- The sort key order of `ORDER BY last_scanned_top_streams ASC NULLS
FIRST`: NULL sorts before every timestamp, timestamps sort ascending. -/
def scanOrderB (x y : Option Int) : Bool :=
  match x, y with
  | none, _ => true
  | some _, none => false
  | some a, some b => decide (a ≤ b)

/-- The row order induced by the `ORDER BY` clause of
`get_categories_to_scan`. -/
def catLE (c d : CategoryRow) : Prop :=
  scanOrderB c.last_scanned_top_streams d.last_scanned_top_streams = true

instance : DecidableRel catLE := fun c d =>
  inferInstanceAs (Decidable (scanOrderB c.last_scanned_top_streams
    d.last_scanned_top_streams = true))

theorem scanOrderB_total (x y : Option Int) :
    scanOrderB x y = true ∨ scanOrderB y x = true := by
  match x, y with
  | none, _ => exact Or.inl rfl
  | some a, none => exact Or.inr rfl
  | some a, some b =>
    simp only [scanOrderB, decide_eq_true_eq]
    exact le_total a b

theorem scanOrderB_trans (x y z : Option Int) (h1 : scanOrderB x y = true)
    (h2 : scanOrderB y z = true) : scanOrderB x z = true := by
  match x, y, z with
  | none, _, _ => rfl
  | some a, none, _ => simp [scanOrderB] at h1
  | some a, some b, none => simp [scanOrderB] at h2
  | some a, some b, some c =>
    simp only [scanOrderB, decide_eq_true_eq] at h1 h2 ⊢
    omega

instance : IsTotal CategoryRow catLE :=
  ⟨fun a b => scanOrderB_total a.last_scanned_top_streams b.last_scanned_top_streams⟩

instance : IsTrans CategoryRow catLE :=
  ⟨fun _ _ _ hab hbc => scanOrderB_trans _ _ _ hab hbc⟩

/-- database.py `get_categories_to_scan(conn, limit)`:
`SELECT id, name FROM Categories ORDER BY last_scanned_top_streams ASC
NULLS FIRST LIMIT ?`.  The `ORDER BY ... LIMIT` is modelled as sorting the
stored rows by the key order and taking the first `limit` rows (SQLite
leaves the order among equal keys unspecified; any key-sorted permutation
satisfies the proved properties). -/
def get_categories_to_scan (table : List CategoryRow) (limit : Nat) : List CategoryRow :=
  (List.insertionSort catLE table).take limit

/-- Claim C8: the rows returned by `get_categories_to_scan` put every
never-scanned category (NULL `last_scanned_top_streams`) before any
previously-scanned one; among the scanned rows the `last_scanned` values
are in oldest-first (nondecreasing) order; and whenever some scanned
category is returned, every never-scanned category of the table is
returned as well (never-scanned rows are never displaced by the LIMIT in
favour of a scanned row). -/
theorem categoriesDueForScan_order (table : List CategoryRow) (limit : Nat) :
    (∀ i j (hi : i < (get_categories_to_scan table limit).length)
        (hj : j < (get_categories_to_scan table limit).length), i < j →
      ((get_categories_to_scan table limit).get ⟨j, hj⟩).last_scanned_top_streams = none →
      ((get_categories_to_scan table limit).get ⟨i, hi⟩).last_scanned_top_streams = none) ∧
    (∀ i j (hi : i < (get_categories_to_scan table limit).length)
        (hj : j < (get_categories_to_scan table limit).length), i < j → ∀ a b : Int,
      ((get_categories_to_scan table limit).get ⟨i, hi⟩).last_scanned_top_streams = some a →
      ((get_categories_to_scan table limit).get ⟨j, hj⟩).last_scanned_top_streams = some b →
      a ≤ b) ∧
    (∀ x ∈ table, x.last_scanned_top_streams = none →
      ∀ y t, y ∈ get_categories_to_scan table limit →
        y.last_scanned_top_streams = some t → x ∈ get_categories_to_scan table limit) := by
  have hsorted : List.Sorted catLE (List.insertionSort catLE table) :=
    List.sorted_insertionSort catLE table
  have hsub : List.Sublist (get_categories_to_scan table limit)
      (List.insertionSort catLE table) := List.take_sublist limit _
  have hpout : (get_categories_to_scan table limit).Pairwise catLE := hsorted.sublist hsub
  refine ⟨?_, ?_, ?_⟩
  · intro i j hi hj hij hnone
    have hrel : catLE ((get_categories_to_scan table limit).get ⟨i, hi⟩)
        ((get_categories_to_scan table limit).get ⟨j, hj⟩) :=
      List.pairwise_iff_get.mp hpout ⟨i, hi⟩ ⟨j, hj⟩ hij
    unfold catLE scanOrderB at hrel
    rcases hx : ((get_categories_to_scan table limit).get
        ⟨i, hi⟩).last_scanned_top_streams with _ | x
    · rfl
    · rw [hx, hnone] at hrel
      exact absurd hrel (by simp)
  · intro i j hi hj hij a b ha hb
    have hrel : catLE ((get_categories_to_scan table limit).get ⟨i, hi⟩)
        ((get_categories_to_scan table limit).get ⟨j, hj⟩) :=
      List.pairwise_iff_get.mp hpout ⟨i, hi⟩ ⟨j, hj⟩ hij
    unfold catLE scanOrderB at hrel
    rw [ha, hb] at hrel
    simpa using hrel
  · intro x hx hxnone y t hy hyt
    have hxs : x ∈ List.insertionSort catLE table :=
      (List.perm_insertionSort catLE table).mem_iff.mpr hx
    obtain ⟨ix, hix⟩ := List.mem_iff_get.mp hxs
    by_cases hlt : ix.val < (get_categories_to_scan table limit).length
    · have : (get_categories_to_scan table limit).get ⟨ix.val, hlt⟩
          = (List.insertionSort catLE table).get ix := by
        unfold get_categories_to_scan at hlt ⊢
        simp [List.getElem_take]
      rw [← hix, ← this]
      exact List.get_mem _ _ _
    · obtain ⟨jy, hjy⟩ := List.mem_iff_get.mp hy
      have hj1 : jy.val < min limit (List.insertionSort catLE table).length := by
        have h := jy.isLt
        simpa [get_categories_to_scan, List.length_take] using h
      have hjlen : jy.val < (List.insertionSort catLE table).length :=
        lt_of_lt_of_le hj1 (min_le_right _ _)
      have hjget : (List.insertionSort catLE table).get ⟨jy.val, hjlen⟩ = y := by
        rw [← hjy]
        unfold get_categories_to_scan
        simp [List.getElem_take]
      have hjx : jy.val < ix.val := lt_of_lt_of_le jy.isLt (Nat.le_of_not_lt hlt)
      have hrel : catLE ((List.insertionSort catLE table).get ⟨jy.val, hjlen⟩)
          ((List.insertionSort catLE table).get ix) :=
        List.pairwise_iff_get.mp hsorted ⟨jy.val, hjlen⟩ ix hjx
      rw [hjget, hix] at hrel
      unfold catLE scanOrderB at hrel
      rw [hyt, hxnone] at hrel
      exact absurd hrel (by simp)

/-- Witness for C8 at concrete inputs: applying the null-prefix part on a
table of two never-scanned categories, and the membership part on a table
with one scanned and one never-scanned category (limit 2): the
never-scanned row is returned whenever the scanned one is. -/
theorem categoriesDueForScan_order_witness :
    ((get_categories_to_scan [⟨"g1", "A", none⟩, ⟨"g2", "B", none⟩] 2).get
        ⟨0, by decide⟩).last_scanned_top_streams = none ∧
    (⟨"g2", "B", none⟩ : CategoryRow) ∈
      get_categories_to_scan [⟨"g1", "A", some 5⟩, ⟨"g2", "B", none⟩] 2 := by
  constructor
  · exact (categoriesDueForScan_order [⟨"g1", "A", none⟩, ⟨"g2", "B", none⟩] 2).1
      0 1 (by decide) (by decide) (by decide) (by decide)
  · exact (categoriesDueForScan_order [⟨"g1", "A", some 5⟩, ⟨"g2", "B", none⟩] 2).2.2
      ⟨"g2", "B", none⟩ (by decide) rfl ⟨"g1", "A", some 5⟩ 5 (by decide) rfl

/-- The character class of `MENTION_REGEX = re.compile(r'@([a-zA-Z0-9_]{4,25})')`. -/
def isWordChar (c : Char) : Bool :=
  (('a' ≤ c && c ≤ 'z') || ('A' ≤ c && c ≤ 'Z') || ('0' ≤ c && c ≤ '9') || c = '_')

/-- `MENTION_REGEX.findall(text)` as a left-to-right scanner: at each '@' the
greedy quantifier `{4,25}` matches the longest run of word characters after
it, capped at 25; a run shorter than 4 fails and scanning resumes at the
next character; after a successful match scanning resumes past the matched
characters (Python `re` finds non-overlapping matches left to right). -/
def scanMentionChars : List Char → List (List Char)
  | [] => []
  | c :: rest =>
    if c = '@' then
      let run := rest.takeWhile isWordChar
      if 4 ≤ run.length then
        (run.take 25) :: scanMentionChars (rest.drop (run.take 25).length)
      else scanMentionChars rest
    else scanMentionChars rest
termination_by l => l.length
decreasing_by
  · simp only [List.length_drop, List.length_cons]
    omega
  · simp only [List.length_cons]
    omega
  · simp only [List.length_cons]
    omega

/-- network_utils.py `extract_mentions(text)`: empty (falsy) or non-string
input yields `[]`; otherwise every regex match is lower-cased and the result
deduplicated (`list(set(...))`). -/
def extract_mentions (text : String) : List String :=
  if text = "" then []
  else ((scanMentionChars text.data).map (fun cs => strToLower (String.mk cs))).dedup

theorem takeWhile_stops_at (p : Char → Bool) (a : Char) (ha : p a = false) :
    ∀ l1 l2 : List Char, (l1 ++ a :: l2).takeWhile p = l1.takeWhile p := by
  intro l1
  induction l1 with
  | nil => intro l2; simp [List.takeWhile, ha]
  | cons c cs ih =>
    intro l2
    rw [List.cons_append, List.takeWhile_cons, List.takeWhile_cons, ih l2]

theorem scanMentionChars_hits_run (run post : List Char)
    (hrun : ∀ c ∈ run, isWordChar c = true) (hlen : 25 < run.length) :
    ∀ (n : Nat) (pre : List Char), pre.length ≤ n →
      run.take 25 ∈ scanMentionChars (pre ++ '@' :: (run ++ post)) := by
  have hbase : ∀ post' : List Char, run.take 25 ∈ scanMentionChars ('@' :: (run ++ post')) := by
    intro post'
    rw [show scanMentionChars ('@' :: (run ++ post'))
        = (if 4 ≤ ((run ++ post').takeWhile isWordChar).length then
            (((run ++ post').takeWhile isWordChar).take 25) ::
              scanMentionChars ((run ++ post').drop
                (((run ++ post').takeWhile isWordChar).take 25).length)
          else scanMentionChars (run ++ post')) from by
      simp [scanMentionChars]]
    have htw : (run ++ post').takeWhile isWordChar = run ++ post'.takeWhile isWordChar :=
      List.takeWhile_append_of_pos hrun
    rw [htw]
    have hl : 4 ≤ (run ++ post'.takeWhile isWordChar).length := by
      rw [List.length_append]
      omega
    rw [if_pos hl]
    have htk : (run ++ post'.takeWhile isWordChar).take 25 = run.take 25 := by
      rw [List.take_append_of_le_length (by omega)]
    rw [htk]
    exact List.mem_cons_self _ _
  intro n
  induction n with
  | zero =>
    intro pre hpre
    have : pre = [] := List.length_eq_zero.mp (Nat.le_zero.mp hpre)
    subst this
    simpa using hbase post
  | succ n ih =>
    intro pre hpre
    match pre with
    | [] => simpa using hbase post
    | c :: pre' =>
      simp only [List.length_cons] at hpre
      have hpre' : pre'.length ≤ n := by omega
      by_cases hc : c = '@'
      · subst hc
        rw [show ('@' :: pre') ++ '@' :: (run ++ post)
            = '@' :: (pre' ++ '@' :: (run ++ post)) from rfl]
        rw [show scanMentionChars ('@' :: (pre' ++ '@' :: (run ++ post)))
            = (if 4 ≤ ((pre' ++ '@' :: (run ++ post)).takeWhile isWordChar).length then
                (((pre' ++ '@' :: (run ++ post)).takeWhile isWordChar).take 25) ::
                  scanMentionChars ((pre' ++ '@' :: (run ++ post)).drop
                    (((pre' ++ '@' :: (run ++ post)).takeWhile isWordChar).take 25).length)
              else scanMentionChars (pre' ++ '@' :: (run ++ post))) from by
          simp [scanMentionChars]]
        have htw : (pre' ++ '@' :: (run ++ post)).takeWhile isWordChar
            = pre'.takeWhile isWordChar :=
          takeWhile_stops_at isWordChar '@' (by decide) pre' (run ++ post)
        rw [htw]
        by_cases h4 : 4 ≤ (pre'.takeWhile isWordChar).length
        · rw [if_pos h4]
          refine List.mem_cons_of_mem _ ?_
          have hk : ((pre'.takeWhile isWordChar).take 25).length ≤ pre'.length := by
            have h1 : ((pre'.takeWhile isWordChar).take 25).length
                ≤ (pre'.takeWhile isWordChar).length := by
              rw [List.length_take]
              exact min_le_right _ _
            exact le_trans h1 (List.takeWhile_sublist _).length_le
          rw [List.drop_append_of_le_length hk]
          refine ih (pre'.drop ((pre'.takeWhile isWordChar).take 25).length) ?_
          rw [List.length_drop]
          omega
        · rw [if_neg h4]
          exact ih pre' hpre'
      · rw [show (c :: pre') ++ '@' :: (run ++ post)
            = c :: (pre' ++ '@' :: (run ++ post)) from rfl]
        rw [show scanMentionChars (c :: (pre' ++ '@' :: (run ++ post)))
            = scanMentionChars (pre' ++ '@' :: (run ++ post)) from by
          simp [scanMentionChars, hc]]
        exact ih pre' hpre'

/-- Claim C10 (implicit): for a text containing '@' followed by a run of
word characters longer than 25, `extract_mentions` does not reject the
over-long token: the greedy `{4,25}` quantifier matches the first 25
characters of the run, so the lower-cased 25-character prefix of the run is
emitted as a candidate — a proper prefix of the token in the text. -/
theorem extract_mentions_truncates (pre run post : List Char)
    (hrun : ∀ c ∈ run, isWordChar c = true) (hlen : 25 < run.length) :
    strToLower (String.mk (run.take 25))
      ∈ extract_mentions (String.mk (pre ++ '@' :: (run ++ post))) ∧
    (run.take 25).length < run.length := by
  constructor
  · have hne : String.mk (pre ++ '@' :: (run ++ post)) ≠ "" := by
      intro h
      have h2 := congrArg String.data h
      simp at h2
    unfold extract_mentions
    rw [if_neg hne]
    rw [List.mem_dedup]
    refine List.mem_map.mpr ⟨run.take 25, ?_, rfl⟩
    exact scanMentionChars_hits_run run post hrun hlen pre.length pre le_rfl
  · rw [List.length_take]
    omega

/-- Witness for C10 at a concrete input: a 26-character run of word
characters after '@'; the emitted candidate is its 25-character prefix. -/
theorem extract_mentions_truncates_witness :
    strToLower (String.mk (List.replicate 26 'A' |>.take 25))
      ∈ extract_mentions (String.mk ([] ++ '@' :: (List.replicate 26 'A' ++ []))) ∧
    ((List.replicate 26 'A').take 25).length < (List.replicate 26 'A').length :=
  extract_mentions_truncates [] (List.replicate 26 'A') []
    (by intro c hc; rw [List.eq_of_mem_replicate hc]; rfl) (by simp)

/-- The token-holding state of `TwitchAPIClient`: `_access_token` and
`_token_expires_at` (times as integer seconds). -/
structure TokenState where
  access_token : Option String
  token_expires_at : Int
deriving DecidableEq, Repr

/-- Python truthiness of `self._access_token`: falsy when `None` or the
empty string. -/
def tokenFalsy (t : Option String) : Bool :=
  match t with
  | none => true
  | some s => decide (s = "")

/-- The outcome of one POST to the auth endpoint: `some (token, expires_in)`
for a successful `{access_token, expires_in}` response, `none` for any
failure path. -/
def AuthResp : Type := Option (String × Int)

/-- twitch_api.py `TwitchAPIClient._authenticate`: on success stores the
token and sets `_token_expires_at = now + (expires_in - 300)` (the 5-minute
safety buffer); on failure clears the token and returns False. -/
def authenticate (st : TokenState) (now : Int) (resp : AuthResp) : TokenState × Bool :=
  match resp with
  | some (tok, expires_in) => (⟨some tok, now + (expires_in - 300)⟩, true)
  | none => (⟨none, st.token_expires_at⟩, false)

/-- The refresh condition of `_get_headers`:
`if not self._access_token or datetime.now(timezone.utc) >= self._token_expires_at`. -/
def needsRefresh (st : TokenState) (now : Int) : Bool :=
  tokenFalsy st.access_token || decide (st.token_expires_at ≤ now)

/-- twitch_api.py `TwitchAPIClient._get_headers`: refresh the token if
missing or expired, with one immediate retry of `_authenticate` before
raising.  Returns the new state, the number of credential exchanges
performed (calls to `_authenticate`), and the Authorization header value
(`none` models the raised exception after both attempts fail).  `resps`
feeds the outcome of each exchange. -/
def get_headers (st : TokenState) (now : Int) (resps : List AuthResp) :
    TokenState × Nat × Option String :=
  if needsRefresh st now then
    match authenticate st now (resps.getD 0 none) with
    | (st1, true) => (st1, 1, st1.access_token.map (fun t => "Bearer " ++ t))
    | (st1, false) =>
      match authenticate st1 now (resps.getD 1 none) with
      | (st2, true) => (st2, 2, st2.access_token.map (fun t => "Bearer " ++ t))
      | (st2, false) => (st2, 2, none)
  else (st, 0, st.access_token.map (fun t => "Bearer " ++ t))

/-- Claim C6: when the first `_get_headers` call needs a refresh and the
exchange succeeds with token `tok` and reported TTL `ttl`, the recorded
expiry is `now + ttl - 300` (acquisition time plus TTL minus the fixed
5-minute safety margin), and a second call issued at any time `n2` before
that expiry performs no further credential exchange — the two calls perform
one exchange in total and the second reuses the stored bearer token, with
the state unchanged. -/
theorem acquireValid_single_exchange (st : TokenState) (n1 n2 ttl : Int) (tok : String)
    (resps2 : List AuthResp) (htok : tok ≠ "")
    (hneed : needsRefresh st n1 = true) (hwin : n2 < n1 + (ttl - 300)) :
    (get_headers st n1 [some (tok, ttl)]).1.token_expires_at = n1 + (ttl - 300) ∧
    (get_headers st n1 [some (tok, ttl)]).2.1 = 1 ∧
    (get_headers (get_headers st n1 [some (tok, ttl)]).1 n2 resps2).2.1 = 0 ∧
    (get_headers st n1 [some (tok, ttl)]).2.1 +
      (get_headers (get_headers st n1 [some (tok, ttl)]).1 n2 resps2).2.1 ≤ 1 ∧
    (get_headers (get_headers st n1 [some (tok, ttl)]).1 n2 resps2).1
      = (get_headers st n1 [some (tok, ttl)]).1 ∧
    (get_headers (get_headers st n1 [some (tok, ttl)]).1 n2 resps2).2.2
      = some ("Bearer " ++ tok) := by
  have h1 : get_headers st n1 [some (tok, ttl)]
      = (⟨some tok, n1 + (ttl - 300)⟩, 1, some ("Bearer " ++ tok)) := by
    unfold get_headers
    rw [if_pos hneed]
    rfl
  have hfresh2 : needsRefresh (⟨some tok, n1 + (ttl - 300)⟩ : TokenState) n2 = false := by
    unfold needsRefresh tokenFalsy
    simp only [Bool.or_eq_false_iff, decide_eq_false_iff_not]
    exact ⟨by simpa using htok, by omega⟩
  have h2 : get_headers (⟨some tok, n1 + (ttl - 300)⟩ : TokenState) n2 resps2
      = (⟨some tok, n1 + (ttl - 300)⟩, 0, some ("Bearer " ++ tok)) := by
    unfold get_headers
    rw [hfresh2]
    rfl
  rw [h1]
  refine ⟨rfl, rfl, ?_, ?_, ?_, ?_⟩ <;> simp [h2]

/-- Witness for C6 at concrete inputs: a fresh client (no token, expiry in
the past), first call at time 0 obtaining a 3600-second token, second call
at time 3000 (inside the 3600 − 300 window). -/
theorem acquireValid_single_exchange_witness :
    (get_headers ⟨none, 0⟩ 0 [some ("tk", 3600)]).1.token_expires_at = 0 + (3600 - 300) ∧
    (get_headers ⟨none, 0⟩ 0 [some ("tk", 3600)]).2.1 = 1 ∧
    (get_headers (get_headers ⟨none, 0⟩ 0 [some ("tk", 3600)]).1 3000 []).2.1 = 0 ∧
    (get_headers ⟨none, 0⟩ 0 [some ("tk", 3600)]).2.1 +
      (get_headers (get_headers ⟨none, 0⟩ 0 [some ("tk", 3600)]).1 3000 []).2.1 ≤ 1 ∧
    (get_headers (get_headers ⟨none, 0⟩ 0 [some ("tk", 3600)]).1 3000 []).1
      = (get_headers ⟨none, 0⟩ 0 [some ("tk", 3600)]).1 ∧
    (get_headers (get_headers ⟨none, 0⟩ 0 [some ("tk", 3600)]).1 3000 []).2.2
      = some ("Bearer " ++ "tk") :=
  acquireValid_single_exchange ⟨none, 0⟩ 0 3000 3600 "tk" [] (by decide) (by decide)
    (by decide)

/-- One `/videos` API response as consumed by `get_channel_videos`:
`data = none` models a response missing the 'data' key, and the opaque
pagination cursor is `none` when absent.  The video records reuse
`VideoRecord` (with `published_at = none` for a missing or unparseable
publish time). -/
structure ApiPage where
  data : Option (List VideoRecord)
  cursor : Option String
deriving DecidableEq, Repr

/-- The early-stop date check of `get_channel_videos`: with a cutoff
(`after_date` truthy) and a parseable publish time, stop when
`published_at_dt <= after_date`; a missing/unparseable publish time skips
the check. -/
def earlyStopHit (after_date : Option Int) (v : VideoRecord) : Bool :=
  match after_date, v.published_at with
  | some cutoff, some pub => decide (pub ≤ cutoff)
  | _, _ => false

/-- The `for video in videos_batch` loop body of `get_channel_videos`:
break (without appending) at the first early-stop hit, append otherwise
while under the overall `limit`, break (without appending) once the limit
is reached.  Returns the grown accumulator and whether
`stop_fetching_for_user` was set. -/
def processBatch (after_date : Option Int) (limit : Nat) (acc : List VideoRecord) :
    List VideoRecord → List VideoRecord × Bool
  | [] => (acc, false)
  | v :: vs =>
    if earlyStopHit after_date v then (acc, true)
    else if acc.length < limit then processBatch after_date limit (acc ++ [v]) vs
    else (acc, true)

/-- The body of one `while` iteration of `get_channel_videos`, after the
page request: break on a response missing 'data', on an empty batch, after
a batch whose processing set `stop_fetching_for_user`, on an absent
pagination cursor, or when `params['first'] = min(100, limit -
len(all_videos))` would be non-positive (`if params['first'] <= 0: break`);
otherwise continue to the next page.  Returns the grown accumulator and
whether the loop breaks. -/
def fetchStep (after_date : Option Int) (limit : Nat) (pg : ApiPage)
    (acc : List VideoRecord) : List VideoRecord × Bool :=
  match pg.data with
  | none => (acc, true)
  | some batch =>
    if batch = [] then (acc, true)
    else
      match processBatch after_date limit acc batch with
      | (acc1, true) => (acc1, true)
      | (acc1, false) =>
        match pg.cursor with
        | none => (acc1, true)
        | some _ =>
          if min 100 (limit - acc1.length) ≤ 0 then (acc1, true)
          else (acc1, false)

/-- The `while` loop of `get_channel_videos`.  The network is an oracle: the
list `pages` holds the successive `/videos` responses, and an exhausted list
models `_make_request` returning `None`.  The returned `Nat` counts issued
page requests (`pages_fetched` is incremented before each request, and every
in-loop break path keeps that increment). -/
def fetchVideoPages (after_date : Option Int) (limit maxP : Nat) :
    List ApiPage → List VideoRecord → Nat → List VideoRecord × Nat
  | pages, acc, fetched =>
    if acc.length < limit ∧ fetched < maxP then
      match pages with
      | [] => (acc, fetched + 1)
      | pg :: rest =>
        match fetchStep after_date limit pg acc with
        | (acc1, true) => (acc1, fetched + 1)
        | (acc1, false) => fetchVideoPages after_date limit maxP rest acc1 (fetched + 1)
    else (acc, fetched)

/-- twitch_api.py `get_channel_videos(user_id, video_type, limit,
after_date)`: `params['first'] = min(limit, 100)` and `max_potential_pages
= (limit + first - 1) // first` bound the loop; returns the collected
records and the number of page requests issued. -/
def get_channel_videos (pages : List ApiPage) (limit : Nat) (after_date : Option Int) :
    List VideoRecord × Nat :=
  let first0 := min limit 100
  let maxP := (limit + first0 - 1) / first0
  fetchVideoPages after_date limit maxP pages [] 0

/-- The records of one API page (`[]` when the 'data' key is missing). -/
def pageRecords (pg : ApiPage) : List VideoRecord :=
  pg.data.getD []

/-- All records of the page stream, flattened in page order. -/
def flatVideos : List ApiPage → List VideoRecord
  | [] => []
  | pg :: rest => pageRecords pg ++ flatVideos rest

/-- The index in `flatVideos` at which page `p` starts. -/
def flatStart : List ApiPage → Nat → Nat
  | _, 0 => 0
  | [], _ + 1 => 0
  | pg :: rest, p + 1 => (pageRecords pg).length + flatStart rest p

theorem processBatch_spec (after : Option Int) (limit : Nat) :
    ∀ (batch acc : List VideoRecord),
      ∃ k, k ≤ batch.length ∧
        (processBatch after limit acc batch).1 = acc ++ batch.take k ∧
        ((processBatch after limit acc batch).2 = false → k = batch.length) := by
  intro batch
  induction batch with
  | nil =>
    intro acc
    exact ⟨0, Nat.le_refl 0, by simp [processBatch], fun _ => rfl⟩
  | cons v vs ih =>
    intro acc
    by_cases hhit : earlyStopHit after v = true
    · refine ⟨0, Nat.zero_le _, by simp [processBatch, hhit], ?_⟩
      intro hfalse
      simp [processBatch, hhit] at hfalse
    · by_cases hlen : acc.length < limit
      · obtain ⟨k', hk'le, hk'eq, hk'imp⟩ := ih (acc ++ [v])
        have hrw : processBatch after limit acc (v :: vs)
            = processBatch after limit (acc ++ [v]) vs := by
          simp [processBatch, hhit, hlen]
        refine ⟨k' + 1, by simpa using Nat.succ_le_succ hk'le, ?_, ?_⟩
        · rw [hrw, hk'eq, List.take_succ_cons, List.append_assoc]
          rfl
        · intro hfalse
          rw [hrw] at hfalse
          rw [hk'imp hfalse]
          simp
      · refine ⟨0, Nat.zero_le _, by simp [processBatch, hhit, hlen], ?_⟩
        intro hfalse
        simp [processBatch, hhit, hlen] at hfalse

theorem processBatch_stops (after : Option Int) (limit : Nat) :
    ∀ (batch acc : List VideoRecord) (i : Nat) (v : VideoRecord),
      batch.get? i = some v → earlyStopHit after v = true →
      (processBatch after limit acc batch).2 = true ∧
      (processBatch after limit acc batch).1.length ≤ acc.length + i := by
  intro batch
  induction batch with
  | nil =>
    intro acc i v hget
    simp at hget
  | cons v0 vs ih =>
    intro acc i v hget hhit
    by_cases h0 : earlyStopHit after v0 = true
    · refine ⟨by simp [processBatch, h0], ?_⟩
      simp only [processBatch, h0, if_true]
      exact Nat.le_add_right _ _
    · cases i with
      | zero =>
        rw [List.get?_cons_zero] at hget
        have hv : v0 = v := by injection hget
        rw [hv] at h0
        exact absurd hhit h0
      | succ i' =>
        rw [List.get?_cons_succ] at hget
        by_cases hlen : acc.length < limit
        · have hrw : processBatch after limit acc (v0 :: vs)
              = processBatch after limit (acc ++ [v0]) vs := by
            simp [processBatch, h0, hlen]
          rw [hrw]
          obtain ⟨h1, h2⟩ := ih (acc ++ [v0]) i' v hget hhit
          refine ⟨h1, ?_⟩
          rw [List.length_append] at h2
          calc (processBatch after limit (acc ++ [v0]) vs).1.length
              ≤ acc.length + 1 + i' := by simpa using h2
            _ = acc.length + (i' + 1) := by omega
        · refine ⟨by simp [processBatch, h0, hlen], ?_⟩
          have : (processBatch after limit acc (v0 :: vs)).1 = acc := by
            simp [processBatch, h0, hlen]
          rw [this]
          exact Nat.le_add_right _ _

theorem fetchStep_spec (after : Option Int) (limit : Nat) (pg : ApiPage)
    (acc : List VideoRecord) :
    ∃ k, k ≤ (pageRecords pg).length ∧
      (fetchStep after limit pg acc).1 = acc ++ (pageRecords pg).take k ∧
      ((fetchStep after limit pg acc).2 = false → k = (pageRecords pg).length) := by
  rcases hd : pg.data with _ | batch
  · have hpr : pageRecords pg = [] := by simp [pageRecords, hd]
    rw [hpr]
    unfold fetchStep
    rw [hd]
    dsimp only
    exact ⟨0, Nat.le_refl 0, by simp, fun _ => rfl⟩
  · have hpr : pageRecords pg = batch := by simp [pageRecords, hd]
    rw [hpr]
    unfold fetchStep
    rw [hd]
    dsimp only
    by_cases hb : batch = []
    · rw [if_pos hb]
      refine ⟨0, Nat.zero_le _, by simp, ?_⟩
      intro hfalse
      simp at hfalse
    · rw [if_neg hb]
      obtain ⟨k, hk, h1, h2⟩ := processBatch_spec after limit batch acc
      rcases hpb : processBatch after limit acc batch with ⟨acc1, stopped⟩
      rw [hpb] at h1 h2
      dsimp only at h1 h2
      cases stopped
      · rcases hc : pg.cursor with _ | cur
        · dsimp only
          refine ⟨k, hk, h1, ?_⟩
          intro hfalse
          simp at hfalse
        · dsimp only
          by_cases hmin : min 100 (limit - acc1.length) ≤ 0
          · rw [if_pos hmin]
            refine ⟨k, hk, h1, ?_⟩
            intro hfalse
            simp at hfalse
          · rw [if_neg hmin]
            exact ⟨k, hk, h1, fun _ => h2 rfl⟩
      · dsimp only
        refine ⟨k, hk, h1, ?_⟩
        intro hfalse
        simp at hfalse

theorem fetchStep_trigger (after : Option Int) (limit : Nat) (pg : ApiPage)
    (acc : List VideoRecord) (batch : List VideoRecord) (i : Nat) (v : VideoRecord)
    (hdata : pg.data = some batch) (hv : batch.get? i = some v)
    (hhit : earlyStopHit after v = true) :
    (fetchStep after limit pg acc).2 = true ∧
    (fetchStep after limit pg acc).1.length ≤ acc.length + i := by
  have hb : batch ≠ [] := by
    intro h
    subst h
    simp at hv
  obtain ⟨hs, hl⟩ := processBatch_stops after limit batch acc i v hv hhit
  unfold fetchStep
  rw [hdata]
  dsimp only
  rw [if_neg hb]
  rcases hpb : processBatch after limit acc batch with ⟨acc1, stopped⟩
  rw [hpb] at hs hl
  dsimp only at hs hl
  cases stopped
  · exact absurd hs (by simp)
  · dsimp only
    exact ⟨rfl, hl⟩

theorem fetchVideoPages_early_stop (after : Option Int) (limit maxP : Nat) :
    ∀ (pages : List ApiPage) (acc : List VideoRecord) (fetched p i : Nat)
      (pg : ApiPage) (batch : List VideoRecord) (v : VideoRecord),
      pages.get? p = some pg → pg.data = some batch → batch.get? i = some v →
      earlyStopHit after v = true →
      (fetchVideoPages after limit maxP pages acc fetched).1.length
          ≤ acc.length + flatStart pages p + i ∧
      (∃ k, (fetchVideoPages after limit maxP pages acc fetched).1
          = acc ++ (flatVideos pages).take k) ∧
      (fetchVideoPages after limit maxP pages acc fetched).2 ≤ fetched + p + 1 := by
  intro pages
  induction pages with
  | nil =>
    intro acc fetched p i pg batch v hpg
    simp at hpg
  | cons pg0 rest ih =>
    intro acc fetched p i pg batch v hpg hdata hv hhit
    have hunf : fetchVideoPages after limit maxP (pg0 :: rest) acc fetched
        = if acc.length < limit ∧ fetched < maxP then
            (match fetchStep after limit pg0 acc with
              | (acc1, true) => (acc1, fetched + 1)
              | (acc1, false) => fetchVideoPages after limit maxP rest acc1 (fetched + 1))
          else (acc, fetched) := rfl
    by_cases hcond : acc.length < limit ∧ fetched < maxP
    · rw [hunf, if_pos hcond]
      rcases hstep : fetchStep after limit pg0 acc with ⟨acc1, stopped⟩
      obtain ⟨k0, hk0le, hk0eq, hk0full⟩ := fetchStep_spec after limit pg0 acc
      rw [hstep] at hk0eq hk0full
      dsimp only at hk0eq hk0full
      cases p with
      | zero =>
        rw [List.get?_cons_zero] at hpg
        have hpg' : pg0 = pg := by injection hpg
        subst hpg'
        obtain ⟨hs2, hl2⟩ := fetchStep_trigger after limit pg0 acc batch i v hdata hv hhit
        rw [hstep] at hs2 hl2
        dsimp only at hs2 hl2
        cases stopped
        · exact absurd hs2 (by simp)
        · dsimp only
          refine ⟨?_, ⟨k0, ?_⟩, ?_⟩
          · rw [show flatStart (pg0 :: rest) 0 = 0 from rfl]
            omega
          · rw [hk0eq, show flatVideos (pg0 :: rest) = pageRecords pg0 ++ flatVideos rest
              from rfl, List.take_append_of_le_length hk0le]
          · omega
      | succ p' =>
        rw [List.get?_cons_succ] at hpg
        have hflat : flatStart (pg0 :: rest) (p' + 1)
            = (pageRecords pg0).length + flatStart rest p' := rfl
        have hacc1len : acc1.length ≤ acc.length + (pageRecords pg0).length := by
          rw [hk0eq, List.length_append, List.length_take]
          omega
        cases stopped
        · dsimp only
          have hk0full' : k0 = (pageRecords pg0).length := hk0full rfl
          have hacc1 : acc1 = acc ++ pageRecords pg0 := by
            rw [hk0eq, hk0full', List.take_of_length_le (Nat.le_refl _)]
          obtain ⟨ihlen, ⟨k', ihpre⟩, ihcnt⟩ :=
            ih acc1 (fetched + 1) p' i pg batch v hpg hdata hv hhit
          refine ⟨?_, ⟨(pageRecords pg0).length + k', ?_⟩, ?_⟩
          · rw [hflat]
            omega
          · rw [ihpre, hacc1,
              show flatVideos (pg0 :: rest) = pageRecords pg0 ++ flatVideos rest from rfl,
              List.take_append_eq_append_take,
              List.take_of_length_le (by omega : (pageRecords pg0).length
                ≤ (pageRecords pg0).length + k'),
              show (pageRecords pg0).length + k' - (pageRecords pg0).length = k' from by omega,
              List.append_assoc]
          · omega
        · dsimp only
          refine ⟨?_, ⟨k0, ?_⟩, ?_⟩
          · rw [hflat]
            omega
          · rw [hk0eq, show flatVideos (pg0 :: rest) = pageRecords pg0 ++ flatVideos rest
              from rfl, List.take_append_of_le_length hk0le]
          · omega
    · rw [hunf, if_neg hcond]
      refine ⟨by dsimp only; omega, ⟨0, by simp⟩, by dsimp only; omega⟩

/-- Claim C5: if, with a cutoff date, some record at page `p`, position `i`
of the page stream satisfies the early-stop predicate (its parsed
`published_at` is not newer than the cutoff), then the returned sequence is
a prefix of the flattened page stream whose length is at most the flattened
index of that record — so that record and every record at or after its
position (including all records on later pages) is absent from the result —
and at most `p + 1` page requests are issued: no page after the triggering
one is requested. -/
theorem get_channel_videos_early_stop (pages : List ApiPage) (limit : Nat)
    (cutoff ts : Int) (p i : Nat) (pg : ApiPage) (batch : List VideoRecord)
    (v : VideoRecord) (hpg : pages.get? p = some pg) (hdata : pg.data = some batch)
    (hv : batch.get? i = some v) (hts : v.published_at = some ts) (hle : ts ≤ cutoff) :
    (get_channel_videos pages limit (some cutoff)).1.length ≤ flatStart pages p + i ∧
    (∃ k, (get_channel_videos pages limit (some cutoff)).1 = (flatVideos pages).take k) ∧
    (get_channel_videos pages limit (some cutoff)).2 ≤ p + 1 := by
  have hhit : earlyStopHit (some cutoff) v = true := by
    unfold earlyStopHit
    rw [hts]
    simp [hle]
  obtain ⟨h1, ⟨k, h2⟩, h3⟩ := fetchVideoPages_early_stop (some cutoff) limit
    ((limit + min limit 100 - 1) / min limit 100) pages [] 0 p i pg batch v
    hpg hdata hv hhit
  have hunf : get_channel_videos pages limit (some cutoff)
      = fetchVideoPages (some cutoff) limit ((limit + min limit 100 - 1) / min limit 100)
          pages [] 0 := rfl
  rw [hunf]
  refine ⟨by simpa using h1, ⟨k, by simpa using h2⟩, by omega⟩

/-- The concrete two-page stream used as the C5 witness: page 0 holds a
fresh video (published 10) and a stale one (published 3), page 1 holds an
older one (published 1). -/
def c5Pages : List ApiPage :=
  [⟨some [⟨"v1", "c", none, some 10, none, none, none, none⟩,
          ⟨"v2", "c", none, some 3, none, none, none, none⟩], some "cur"⟩,
   ⟨some [⟨"v3", "c", none, some 1, none, none, none, none⟩], none⟩]

/-- Witness for C5 at concrete inputs: cutoff 5 triggers at page 0, position
1; only the single fresher record is returned and only one page request is
issued. -/
theorem get_channel_videos_early_stop_witness :
    ((get_channel_videos c5Pages 100 (some 5)).1.length ≤ flatStart c5Pages 0 + 1 ∧
      (∃ k, (get_channel_videos c5Pages 100 (some 5)).1 = (flatVideos c5Pages).take k) ∧
      (get_channel_videos c5Pages 100 (some 5)).2 ≤ 0 + 1) ∧
    (get_channel_videos c5Pages 100 (some 5)).1
      = [⟨"v1", "c", none, some 10, none, none, none, none⟩] ∧
    (get_channel_videos c5Pages 100 (some 5)).2 = 1 :=
  ⟨get_channel_videos_early_stop c5Pages 100 5 3 0 1
      ⟨some [⟨"v1", "c", none, some 10, none, none, none, none⟩,
             ⟨"v2", "c", none, some 3, none, none, none, none⟩], some "cur"⟩
      [⟨"v1", "c", none, some 10, none, none, none, none⟩,
       ⟨"v2", "c", none, some 3, none, none, none, none⟩]
      ⟨"v2", "c", none, some 3, none, none, none, none⟩
      rfl rfl rfl rfl (by decide),
   rfl, rfl⟩
